import Mathlib

/-!
Shallow embedding of the replay-analysis core in `PhysPar.py` (class `PhysPar`).

Python dictionaries are modelled as insertion-ordered association lists
(`alget` / `alset` mirror `dict.get` / `dict.__setitem__`: an update keeps the
key's position, a fresh key is appended at the end, and iteration follows list
order, exactly like CPython's insertion-ordered dicts).  Numeric physics values
(Python floats) are modelled as rationals; frame indices are naturals.
Functions that can raise a Python exception return `Option`, with `none`
standing for the raised exception.
-/

set_option autoImplicit false

namespace PhysPar

/-- Association-list lookup, mirroring Python `dict.get`: the first (unique)
entry with the given key, or `none`. -/
def alget {α β : Type} [DecidableEq α] : List (α × β) → α → Option β
  | [], _ => none
  | (k, v) :: rest, a => if k = a then some v else alget rest a

/-- Association-list store, mirroring Python `dict.__setitem__`: replaces the
value in place when the key is present (keeping its position / insertion
order), otherwise appends the new pair at the end. -/
def alset {α β : Type} [DecidableEq α] : List (α × β) → α → β → List (α × β)
  | [], a, b => [(a, b)]
  | (k, v) :: rest, a, b =>
    if k = a then (k, b) :: rest else (k, v) :: alset rest a b

/-- Triple of coordinates, mirroring the `{x, y, z}` sub-objects of a decoded
`rigid_body_state`. -/
structure Vec3 where
  x : ℚ
  y : ℚ
  z : ℚ
  deriving DecidableEq, Repr

/-- Quaternion components, mirroring the `rotation.quaternion` sub-object. -/
structure Quat where
  x : ℚ
  y : ℚ
  z : ℚ
  w : ℚ
  deriving DecidableEq, Repr

/-- Decoded `rigid_body_state` of one update entry.  The four fields can each
be `null` in the decoded JSON, hence the `Option`s (the code skips the update
when `angular_velocity` or `linear_velocity` is null, and would crash when
`location` or `rotation` is null). -/
structure RBS where
  angular_velocity : Option Vec3
  linear_velocity : Option Vec3
  location : Option Vec3
  rotation : Option Quat
  deriving DecidableEq, Repr

/-- One entry of a replication's `updated` list.  The numeric property id
determines the payload shape in the decoder's output: id 42 (`PHYS_ID`)
carries a `rigid_body_state`, id 66 (`COLOR_ID`) carries `team_paint.team`,
and any other id carries data the analysis never reads. -/
inductive UpdateEntry where
  | phys (rbs : RBS)
  | color (team : ℕ)
  | otherId (id : ℕ)
  deriving DecidableEq, Repr

/-- Payload of one replication: either a `spawned` record with a class name,
or an `updated` record whose entry list may be absent (`dict.get('updated')`
returning `None`). -/
inductive RValue where
  | spawned (class_name : String)
  | updated (entries : Option (List UpdateEntry))
  deriving DecidableEq, Repr

/-- One replication (actor-level event) inside a frame. -/
structure Replication where
  actor_id : ℤ
  value : RValue
  deriving DecidableEq, Repr

/-- One frame of the decoded trace: an ordered list of replications. -/
structure Frame where
  replications : List Replication
  deriving DecidableEq, Repr

/-- One scoring mark from the trace's mark list. -/
structure Mark where
  frame : ℕ
  value : String
  deriving DecidableEq, Repr

/-- The decoded trace, i.e. the parts of the loaded JSON that `PhysPar`
reads: the frame list, the key-frame (epoch boundary) indices
(`update_frames`), the object-name catalogue, and the scoring marks. -/
structure Trace where
  frames : List Frame
  key_frames : List ℕ
  objects : List String
  marks : List Mark
  deriving DecidableEq, Repr

/-- Entity key of the physics map.  The Python code uses the strings
`'ball'` and `f'{team}_car_{actor_id}'` with `team ∈ {0,1}`; since that
formatting is injective the key is modelled as an inductive type
(`create_feature`'s test `key[0] == '0'` corresponds to `team = 0`). -/
inductive EKey where
  | ball
  | car (team : ℕ) (actor_id : ℤ)
  deriving DecidableEq, Repr

/-- One stored physics snapshot: the 13 component values kept for an entity
at a frame, in the insertion order used at `PhysPar.py:164-171`. -/
structure Snap where
  av : Vec3
  lv : Vec3
  loc : Vec3
  rot : Quat
  deriving DecidableEq, Repr

/-- Flattening of a snapshot in the nested-dict insertion order, which is the
order `create_feature`'s `get_leaf_nodes` recursion visits the 13 leaves. -/
def Snap.flatten (s : Snap) : List ℚ :=
  [s.av.x, s.av.y, s.av.z, s.lv.x, s.lv.y, s.lv.z,
   s.loc.x, s.loc.y, s.loc.z, s.rot.x, s.rot.y, s.rot.z, s.rot.w]

/-- The per-frame entity map (inner dict of `self.physics`). -/
abbrev FrameMap := List (EKey × Snap)

/-- The physics collection `self.physics`: an insertion-ordered map from
frame index to entity map. -/
abbrev PhysMap := List (ℕ × FrameMap)

/-- Name of the ball class, as used by `get_physics`. -/
def ballClass : String := "TAGame.Ball_TA"

/-- Name of the car class, as used by `get_physics`. -/
def carClass : String := "TAGame.Car_TA"

/-- Ordered insertion used to model Python's `sorted` on dict items (keys are
unique, so tie order is irrelevant). -/
def insertByKey (p : ℤ × String) : List (ℤ × String) → List (ℤ × String)
  | [] => [p]
  | q :: rest => if p.1 ≤ q.1 then p :: q :: rest else q :: insertByKey p rest

/-- Sorting by actor id, modelling `dict(sorted(output.items()))`. -/
def sortByKey (l : List (ℤ × String)) : List (ℤ × String) :=
  l.foldr insertByKey []

/-- Model of `PhysPar.find_ids`: the actor_id → class_name map collected from
the spawn replications of the frame at `spawnframe`, sorted by actor id.
`none` models the `IndexError` when the frame index is out of range (the
`spawnframe in update_frames` check is established by the callers in
`get_physics`). -/
def find_ids (t : Trace) (spawnframe : ℕ) : Option (List (ℤ × String)) :=
  (t.frames.get? spawnframe).map fun fr =>
    sortByKey (fr.replications.foldl (fun acc r =>
      match r.value with
      | RValue.spawned cls => alset acc r.actor_id cls
      | RValue.updated _ => acc) [])

/-- Model of `PhysPar.get_ids` (with `frame=None`): the ascending actor ids
whose spawned class equals `obj`; `none` models the `KeyError` when `obj` is
not in the object catalogue, or a failing `find_ids`. -/
def get_ids (t : Trace) (obj : String) (spawnframe : ℕ) : Option (List ℤ) :=
  if obj ∈ t.objects then
    (find_ids t spawnframe).map fun l => (l.filter (fun p => p.2 = obj)).map (·.1)
  else none

/-- Model of `PhysPar.find_teams` for a single spawnframe: scans that frame's
non-spawn replications of known cars for `COLOR_ID` entries and appends the
actor id to the team given by `team_paint.team`.  `none` models the raised
`KeyError`s (a car update without an `updated` list, or a team outside
`{0,1}`). -/
def find_teams (t : Trace) (spawnframe : ℕ) : Option (List ℤ × List ℤ) := do
  let cars ← get_ids t carClass spawnframe
  let fr ← t.frames.get? spawnframe
  fr.replications.foldlM (fun (tm : List ℤ × List ℤ) r =>
    match r.value with
    | RValue.spawned _ => some tm
    | RValue.updated upd =>
      if r.actor_id ∈ cars then
        match upd with
        | none => none
        | some entries =>
          entries.foldlM (fun (tm2 : List ℤ × List ℤ) e =>
            match e with
            | UpdateEntry.phys _ => some tm2
            | UpdateEntry.otherId _ => some tm2
            | UpdateEntry.color team =>
              if team = 0 then some (tm2.1 ++ [r.actor_id], tm2.2)
              else if team = 1 then some (tm2.1, tm2.2 ++ [r.actor_id])
              else none) tm
      else some tm) (([], []) : List ℤ × List ℤ)

/-- Lookup of one entity's snapshot at a frame, mirroring
`output.get(i, {}).get(key)` (a stored snapshot dict is never empty, so
Python truthiness coincides with `isSome`). -/
def pmGetK (pm : PhysMap) (i : ℕ) (k : EKey) : Option Snap :=
  (alget pm i).bind fun m => alget m k

/-- Store of one entity's snapshot at a frame, mirroring
`if output.get(i) is None: output[i] = {}` followed by `output[i][key] = ...`. -/
def pmSet (pm : PhysMap) (i : ℕ) (k : EKey) (s : Snap) : PhysMap :=
  alset pm i (alset ((alget pm i).getD []) k s)

/-- Presence probe used by the interpolation scan: Python evaluates
`bool(output.get(i - nm, {}).get(key, {}))`, where a negative frame index is
simply an absent dict key. -/
def probe (pm : PhysMap) (k : EKey) (i nm : ℕ) : Bool :=
  decide (nm ≤ i) && (pmGetK pm (i - nm) k).isSome

/-- Back-fill of `num_missing` gap frames `i-1, i-2, ...` with the snapshot
just stored at frame `i` (`PhysPar.py:182-187`).  The filled frames are
inserted in this descending order, which is the insertion order the Python
dict ends up with. -/
def interpFill (pm : PhysMap) (i : ℕ) (k : EKey) (s : Snap) (num : ℕ) : PhysMap :=
  (List.range num).foldl (fun acc n => pmSet acc (i - 1 - n) k s) pm

/-- The `while num_missing < 5` scan of the interpolation pass
(`PhysPar.py:176-188`), written with the loop's remaining iteration count as
structural fuel: started with `fuel = 4, nm = 1` it probes `nm = 1, 2, 3, 4`
and exits unchanged when `nm` reaches 5, exactly like the Python loop.  On
the first present probe at distance `nm` it back-fills `nm - 1` frames and
stops. -/
def interpScanAux (pm : PhysMap) (i : ℕ) (k : EKey) (s : Snap) :
    ℕ → ℕ → PhysMap
  | 0, _ => pm
  | fuel + 1, nm =>
    if probe pm k i nm then interpFill pm i k s (nm - 1)
    else interpScanAux pm i k s fuel (nm + 1)

/-- One interpolation step for the snapshot just stored at `(i, k)`: skipped
for frame 0 and when frame `i - 1` already has a snapshot for `k`
(`PhysPar.py:175`), otherwise the bounded backward scan runs. -/
def interpStep (pm : PhysMap) (i : ℕ) (k : EKey) (s : Snap) : PhysMap :=
  if i = 0 then pm
  else if (pmGetK pm (i - 1) k).isSome then pm
  else interpScanAux pm i k s 4 1

/-- First entry with property id `PHYS_ID` (42) in an `updated` list, i.e.
its `rigid_body_state` (`PhysPar.py:139-142`). -/
def findPhys : List UpdateEntry → Option RBS
  | [] => none
  | UpdateEntry.phys rbs :: _ => some rbs
  | _ :: rest => findPhys rest

/-- Processing of one replication inside `get_physics`'s frame loop
(`PhysPar.py:129-188`): spawns are skipped, as are actors outside the current
epoch's ball/car id sets, replications without an `updated` list, without a
physics entry, or whose angular or linear velocity is null.  Otherwise the
snapshot is stored under `'ball'` or `'{team}_car_{actor_id}'` (team 1
exactly when the actor id is in the current epoch's team-1 list) and the
interpolation step runs.  `none` models the crash on a null location or
rotation. -/
def replStep (ballIds carIds teams1 : List ℤ) (interpolate : Bool) (i : ℕ)
    (pm : PhysMap) (r : Replication) : Option PhysMap :=
  match r.value with
  | RValue.spawned _ => some pm
  | RValue.updated upd =>
    if r.actor_id ∈ ballIds ∨ r.actor_id ∈ carIds then
      match upd with
      | none => some pm
      | some entries =>
        match findPhys entries with
        | none => some pm
        | some rbs =>
          match rbs.angular_velocity with
          | none => some pm
          | some av =>
            match rbs.linear_velocity with
            | none => some pm
            | some lv =>
              match rbs.location, rbs.rotation with
              | some loc, some rot =>
                let key := if r.actor_id ∈ ballIds then EKey.ball
                  else EKey.car (if r.actor_id ∈ teams1 then 1 else 0) r.actor_id
                let s : Snap := ⟨av, lv, loc, rot⟩
                let pm1 := pmSet pm i key s
                some (if interpolate then interpStep pm1 i key s else pm1)
              | _, _ => none
    else some pm

/-- State threaded through `get_physics`'s frame loop: the epoch cursor
`update_pointer`, the current epoch's id sets and team map, and the output
map.  `visited` additionally records the frame indices at which the epoch
cursor fired and the ids were re-resolved; it influences nothing else. -/
structure PState where
  pointer : ℕ
  ballIds : List ℤ
  carIds : List ℤ
  teams0 : List ℤ
  teams1 : List ℤ
  visited : List ℕ
  out : PhysMap
  deriving Repr, DecidableEq

/-- The epoch-boundary update at the top of `get_physics`'s frame loop
(`PhysPar.py:119-124`): when `update_pointer` is not at the last key frame
and `i` equals the key frame it points at, the ball ids, car ids and team
map are re-resolved for that boundary and the pointer advances. -/
def epochStep (t : Trace) (ball cars : Bool) (i : ℕ) (st : PState) :
    Option PState :=
  if st.pointer + 1 ≠ t.key_frames.length ∧ t.key_frames.get? st.pointer = some i then do
    let st1 ←
      if ball then do
        let b ← get_ids t ballClass i
        pure { st with ballIds := b }
      else pure st
    let st2 ←
      if cars then do
        let c ← get_ids t carClass i
        let tm ← find_teams t i
        pure { st1 with carIds := c, teams0 := tm.1, teams1 := tm.2 }
      else pure st1
    pure { st2 with pointer := st2.pointer + 1, visited := st2.visited ++ [i] }
  else pure st

/-- The body of `get_physics`'s loop over all frames, by recursion on the
remaining frame list with `i` the index of the head frame. -/
def physGo (t : Trace) (ball cars interpolate : Bool) :
    ℕ → List Frame → PState → Option PState
  | _, [], st => some st
  | i, fr :: rest, st => do
    let st1 ← epochStep t ball cars i st
    let out1 ← fr.replications.foldlM
      (replStep st1.ballIds st1.carIds st1.teams1 interpolate i) st1.out
    physGo t ball cars interpolate (i + 1) rest { st1 with out := out1 }

/-- Model of `PhysPar.get_physics(ball, cars, interpolate)` returning the
full final loop state.  `none` models the `AttributeError`s raised when both
selectors are off or when `update_frames` is empty (`update_frames[0]`
raising `IndexError`) or does not start at 0. -/
def get_physicsFull (t : Trace) (ball cars interpolate : Bool) : Option PState :=
  if ball = false ∧ cars = false then none
  else
    match t.key_frames with
    | [] => none
    | k0 :: _ =>
      if k0 ≠ 0 then none
      else physGo t ball cars interpolate 0 t.frames ⟨0, [], [], [], [], [], []⟩

/-- Model of `self.physics = self.get_physics()` (all defaults on). -/
def get_physics (t : Trace) : Option PhysMap :=
  (get_physicsFull t true true true).map (·.out)

/-- The list of epoch boundaries at which `get_physics` (with default
arguments) actually re-resolved the identity maps, in visiting order. -/
def visitedBoundaries (t : Trace) : Option (List ℕ) :=
  (get_physicsFull t true true true).map (·.visited)

/-- Test that a character list starts with the given pattern. -/
def leadsWith : List Char → List Char → Bool
  | [], _ => true
  | _ :: _, [] => false
  | p :: ps, c :: cs => (p = c) && leadsWith ps cs

/-- Test that the pattern occurs contiguously somewhere in the list. -/
def occursIn (pat : List Char) : List Char → Bool
  | [] => leadsWith pat []
  | c :: cs => leadsWith pat (c :: cs) || occursIn pat cs

/-- Substring test `'Goal' in mark['value']`. -/
def containsGoal (s : String) : Bool :=
  occursIn "Goal".data s.data

/-- The `ball_only` comprehension of `find_goals` (`PhysPar.py:198`): the
frames carrying a ball snapshot, in the physics map's iteration (insertion)
order. -/
def ballFrames (pm : PhysMap) : List (ℕ × Snap) :=
  pm.filterMap fun p => (alget p.2 EKey.ball).map fun s => (p.1, s)

/-- The `possible_goals` list (`PhysPar.py:200`): frames whose ball snapshot
has `|location.y| > GOAL_Y`, in `ball_only` iteration order. -/
def possibleGoals (pm : PhysMap) : List ℕ :=
  (ballFrames pm).filterMap fun p =>
    if |p.2.loc.y| > (510000 : ℚ) then some p.1 else none

/-- The scoring marks whose value contains `'Goal'` (`PhysPar.py:199`). -/
def goalMarks (marks : List Mark) : List Mark :=
  marks.filter fun m => containsGoal m.value

/-- Model of `PhysPar.find_goals`: for each goal mark in trace list order,
the first frame of `possible_goals` (in its iteration order) that is `≥` the
mark's frame is mapped to the mark's scoring team (1 iff the mark value is
`'Team1Goal'`). -/
def find_goals (pm : PhysMap) (marks : List Mark) : List (ℕ × ℕ) :=
  (goalMarks marks).foldl (fun acc m =>
    match (possibleGoals pm).find? (fun g => decide (g ≥ m.frame)) with
    | some g => alset acc g (if m.value = "Team1Goal" then 1 else 0)
    | none => acc) []

/-- Frame presence used by `find_kickoffs`: `bool(self.physics.get(f))` (a
present frame map is never empty). -/
def framePresent (pm : PhysMap) (f : ℕ) : Bool :=
  (alget pm f).isSome

/-- The `while not found` scan of `find_kickoffs` (`PhysPar.py:227-233`),
with explicit fuel: the Python loop has no bound, so `none` for every fuel
means the loop never terminates.  `cars_reset` latches once the ten frames
from the current window are all absent; the kickoff is the first window
after that whose ten frames are all present. -/
def kickoffLoop (pm : PhysMap) : ℕ → ℕ → Bool → Option ℕ
  | 0, _, _ => none
  | fuel + 1, window, carsReset =>
    let cr := carsReset || (List.range 10).all fun j => !framePresent pm (window + j)
    if cr && ((List.range 10).all fun j => framePresent pm (window + j)) then
      some window
    else kickoffLoop pm fuel (window + 1) cr

/-- Model of `PhysPar.find_kickoffs`: scans from every goal frame but the
last, plus frame 0, mapping each to the kickoff frame found by
`kickoffLoop`.  `none` when any scan exceeds the given fuel, i.e. when the
unbounded Python loop runs at least that long. -/
def find_kickoffs (pm : PhysMap) (marks : List Mark) (fuel : ℕ) :
    Option (List (ℕ × ℕ)) :=
  let goalFrames := ((find_goals pm marks).map (·.1)).dropLast ++ [0]
  goalFrames.foldlM (fun acc g =>
    (kickoffLoop pm fuel g false).map fun w => alset acc g w) []

/-- Running mean of the first `j + 1` booleans of `arr`, i.e.
`cumsum(arr)[j] / (j + 1)` in `find_window_size`. -/
def meanPref (arr : List Bool) (j : ℕ) : ℚ :=
  ((arr.take (j + 1)).count true : ℚ) / (j + 1)

/-- Index of the first `false`, modelling `np.argmin` on a boolean array
(`False < True`, first occurrence of the minimum): `none` when all entries
are `true`, in which case `np.argmin` yields 0. -/
def ffIdx : List Bool → Option ℕ
  | [] => none
  | false :: _ => some 0
  | true :: rest => (ffIdx rest).map (· + 1)

/-- Model of the helper `find_window_size` in `poss_intervals`
(`PhysPar.py:246-255`): `none` models the `ValueError`s (threshold outside
`[0,1]`, or `np.argmin` on an empty array); otherwise the result is the last
index of the running-mean prefix (when every running mean exceeds the
threshold) or the first index whose running mean does not exceed it. -/
def find_window_size (arr : List Bool) (threshold : ℚ) : Option ℕ :=
  if threshold < 0 ∨ 1 < threshold then none
  else if arr.isEmpty then none
  else
    let flags := (List.range arr.length).map fun j => decide (meanPref arr j > threshold)
    some (if flags.all (fun b => b) then arr.length - 1 else (ffIdx flags).getD 0)

/-- The `last_kickoff` computation of `poss_intervals` (`PhysPar.py:262`):
the largest frame below the goal that is within `range(max(physics))` but
absent from the physics map.  `none` models the `ValueError` of `max` on an
empty collection. -/
def lastKickoff (pm : PhysMap) (goal : ℕ) : Option ℕ := do
  let mx ← (pm.map (·.1)).max?
  ((List.range mx).filter fun f => !framePresent pm f && decide (f < goal)).max?

/-- The backward frame scan `range(goal, last_kickoff, -1)`. -/
def descFrames (goal lk : ℕ) : List ℕ :=
  (List.range' (lk + 1) (goal - lk)).reverse

/-- Collection of `(location.y, linear_velocity.y)` of the ball over a frame
list (`PhysPar.py:266-270`); frames without a ball snapshot are skipped, and
a frame absent from the physics map altogether raises (`self.physics[frame]`),
modelled as `none`. -/
def collectBall (pm : PhysMap) : List ℕ → Option (List (ℚ × ℚ))
  | [] => some []
  | f :: rest =>
    match alget pm f with
    | none => none
    | some m =>
      match alget m EKey.ball with
      | none => collectBall pm rest
      | some s => (collectBall pm rest).map fun l => (s.loc.y, s.lv.y) :: l

/-- The attacking-predicate sequence for one goal, nearest-to-goal first:
sign-flipped when team 1 scored, then
`y_location > attack_line  or  y_velocity > 0` (`PhysPar.py:275-283`). -/
def attackFlags (pairs : List (ℚ × ℚ)) (team : ℕ) : List Bool :=
  let pairs1 := if team = 1 then pairs.map (fun p => (-p.1, -p.2)) else pairs
  pairs1.map fun p => decide (p.1 > 170000) || decide (p.2 > 0)

/-- The per-goal body of `poss_intervals`' loop (`PhysPar.py:262-285`): the
`last_kickoff` lookup, the backward ball scan, the attacking-flag sequence
and the window size, yielding the goal's interval. -/
def goalInterval (pm : PhysMap) (gt : ℕ × ℕ) (threshold : ℚ) : Option (ℕ × ℕ) := do
  let lk ← lastKickoff pm gt.1
  let pairs ← collectBall pm (descFrames gt.1 lk)
  let k ← find_window_size (attackFlags pairs gt.2) threshold
  pure (gt.1 - k, gt.1)

/-- Model of `PhysPar.poss_intervals`: one `(goal - find_window_size(...),
goal)` pair per detected goal, in goal iteration order. -/
def poss_intervals (pm : PhysMap) (marks : List Mark) (threshold : ℚ) :
    Option (List (ℕ × ℕ)) :=
  (find_goals pm marks).foldlM (fun acc gt =>
    (goalInterval pm gt threshold).map fun p => acc ++ [p]) []

/-- The team-`tm` car snapshots of a frame map, as partitioned by
`create_feature` from the key's leading team digit.  Python iterates these
as a `set`, whose order is unspecified; the map's entry order is used here
(the claims checked below depend only on the multiset). -/
def teamCars (m : FrameMap) (tm : ℕ) : List Snap :=
  m.filterMap fun p =>
    match p.1 with
    | EKey.car t _ => if t = tm then some p.2 else none
    | EKey.ball => none

/-- Concatenated flattening of a list of snapshots. -/
def flattenAll : List Snap → List ℚ
  | [] => []
  | s :: rest => s.flatten ++ flattenAll rest

/-- Validity test of the `scorer` argument (`scorer in (0, 1)`). -/
def scorerOk : Option ℕ → Bool
  | none => true
  | some s => decide (s = 0) || decide (s = 1)

/-- The optional leading scorer label of a feature vector. -/
def scorerPart : Option ℕ → List ℚ
  | none => []
  | some s => [(s : ℚ)]

/-- The flattened feature list `create_feature` assembles for a frame map
with ball snapshot `ballS`: optional scorer label, ball leaves, each team's
car leaves followed by `13 * (3 - #cars)` zero padding. -/
def assembleFeature (m : FrameMap) (ballS : Snap) (scorer : Option ℕ) : List ℚ :=
  scorerPart scorer ++ ballS.flatten
    ++ flattenAll (teamCars m 0) ++ List.replicate (13 * (3 - (teamCars m 0).length)) 0
    ++ flattenAll (teamCars m 1) ++ List.replicate (13 * (3 - (teamCars m 1).length)) 0

/-- One non-recursive evaluation step of `create_feature` at a frame, with
`recur` the outcome the oversized-group fallback would produce.  The outer
`Option` is `none` for a raised exception (invalid scorer,
`self.physics[frame]` on a missing frame); `some none` is the Python
`return None` (missing ball, or the defensive length check); `some (some v)`
is a returned feature vector. -/
def featureStep (pm : PhysMap) (frame : ℕ) (scorer : Option ℕ)
    (recur : Option (Option (List ℚ))) : Option (Option (List ℚ)) :=
  if !scorerOk scorer then none
  else
    match alget pm frame with
    | none => none
    | some m =>
      match alget m EKey.ball with
      | none => some none
      | some ballS =>
        if (teamCars m 0).length > 3 ∨ (teamCars m 1).length > 3 then recur
        else
          let ff := assembleFeature m ballS scorer
          if ff.length ≠ 91 ∧ ff.length ≠ 92 then some none
          else some (some ff)

/-- Model of `PhysPar.create_feature(frame, scorer)`: the Python recursion on
an oversized group is unbounded, so it is run on explicit fuel; exhausting
the fuel yields `none`, so a `none` for every fuel means the recursion never
returns. -/
def create_feature (pm : PhysMap) : ℕ → ℕ → Option ℕ → Option (Option (List ℚ))
  | 0, frame, scorer => featureStep pm frame scorer none
  | fuel + 1, frame, scorer =>
    featureStep pm frame scorer (create_feature pm fuel (frame + 1) scorer)

/-- Rigid-body state with all fields present, a given location `y` and linear
velocity `y`, used by the concrete test traces below. -/
def mkRBS (locY velY : ℚ) : RBS :=
  ⟨some ⟨1, 2, 3⟩, some ⟨0, velY, 0⟩, some ⟨0, locY, 0⟩, some ⟨0, 0, 0, 1⟩⟩

/-- The snapshot `get_physics` stores for `mkRBS locY velY`. -/
def mkSnap (locY velY : ℚ) : Snap :=
  ⟨⟨1, 2, 3⟩, ⟨0, velY, 0⟩, ⟨0, locY, 0⟩, ⟨0, 0, 0, 1⟩⟩

/-- Physics update replication for the ball actor (id 1) of the test traces. -/
def ballUpd (locY velY : ℚ) : Replication :=
  ⟨1, RValue.updated (some [UpdateEntry.phys (mkRBS locY velY)])⟩

/-- Spawn replication introducing actor 1 as the ball. -/
def ballSpawn : Replication :=
  ⟨1, RValue.spawned ballClass⟩

/-- Frame holding only a ball physics update. -/
def ballFrame (locY velY : ℚ) : Frame :=
  ⟨[ballUpd locY velY]⟩

/-- Frame with no replications. -/
def emptyFrame : Frame :=
  ⟨[]⟩

/-- Trace with a ball snapshot at frames 0 and 5 and a four-frame gap at
frames 1-4 (ball actor 1 spawned at frame 0; second key frame 100 is never
reached). -/
def T1 : Trace :=
  ⟨[⟨[ballSpawn, ballUpd 0 0]⟩, emptyFrame, emptyFrame, emptyFrame, emptyFrame,
    ballFrame 7 0],
   [0, 100], [ballClass, carClass], []⟩

/-- Trace with a ball snapshot at frames 0 and 4 and a three-frame gap at
frames 1-3. -/
def T1b : Trace :=
  ⟨[⟨[ballSpawn, ballUpd 0 0]⟩, emptyFrame, emptyFrame, emptyFrame,
    ballFrame 7 0],
   [0, 100], [ballClass, carClass], []⟩

/-- Trace whose single frame produces no physics at all (its only key frame
is also the last, so the epoch ids are never resolved). -/
def T3 : Trace :=
  ⟨[emptyFrame], [0], [ballClass, carClass], []⟩

/-- Trace for the possession-interval scan: ball absent at frame 0, present
at frames 1-10; the attacking predicate holds at the goal frame 10 and at
frames 1-8, but fails at frame 9. -/
def T4 : Trace :=
  ⟨[⟨[ballSpawn]⟩,
    ballFrame 0 1, ballFrame 0 1, ballFrame 0 1, ballFrame 0 1,
    ballFrame 0 1, ballFrame 0 1, ballFrame 0 1, ballFrame 0 1,
    ballFrame 0 (-1), ballFrame 600000 0],
   [0, 100], [ballClass, carClass], [⟨2, "Team0Goal"⟩]⟩

/-- Trace for the kickoff / possession interaction: frames 0-9 have no
physics (the reset window), frames 10-25 all carry the ball, and the goal is
at frame 25. -/
def T5 : Trace :=
  ⟨[⟨[ballSpawn]⟩, emptyFrame, emptyFrame, emptyFrame, emptyFrame,
    emptyFrame, emptyFrame, emptyFrame, emptyFrame, emptyFrame,
    ballFrame 0 1, ballFrame 0 1, ballFrame 0 1, ballFrame 0 1,
    ballFrame 0 1, ballFrame 0 1, ballFrame 0 1, ballFrame 0 1,
    ballFrame 0 1, ballFrame 0 1, ballFrame 0 1, ballFrame 0 1,
    ballFrame 0 1, ballFrame 0 1, ballFrame 0 1, ballFrame 600000 1],
   [0, 100], [ballClass, carClass], [⟨20, "Team0Goal"⟩]⟩

/-- Trace where interpolation back-fills goal-distance ball snapshots out of
frame order: ball at frames 0-2 (low `y`), gap at frames 3-4, reappearance at
frame 5 beyond the goal line, so frames 4 and 3 are back-filled after frame 5
and the physics map iterates them as 0, 1, 2, 5, 4, 3. -/
def T6 : Trace :=
  ⟨[⟨[ballSpawn, ballUpd 0 0]⟩, ballFrame 0 0, ballFrame 0 0,
    emptyFrame, emptyFrame, ballFrame 600000 0],
   [0, 100], [ballClass, carClass], [⟨3, "Team0Goal"⟩]⟩

/-- Trace whose key-frame list is `[0, 2]`: a new ball actor (id 5) spawns at
the second epoch boundary, frame 2, and only that actor carries physics
there. -/
def T7 : Trace :=
  ⟨[⟨[ballSpawn, ballUpd 0 0]⟩, ballFrame 0 0,
    ⟨[⟨5, RValue.spawned ballClass⟩,
      ⟨5, RValue.updated (some [UpdateEntry.phys (mkRBS 4 0)])⟩]⟩],
   [0, 2], [ballClass, carClass], []⟩

/-- Physics update replication for the car actor (id 2) of `TFeat`. -/
def carUpd (locY : ℚ) : Replication :=
  ⟨2, RValue.updated (some [UpdateEntry.phys (mkRBS locY 0)])⟩

/-- Trace with a ball (actor 1) and one team-0 car (actor 2): both carry
physics at frames 0 and 5, only the car at frames 1-4 (so the ball gap has
length 4 and is not back-filled). -/
def TFeat : Trace :=
  ⟨[⟨[ballSpawn, ⟨2, RValue.spawned carClass⟩,
      ⟨2, RValue.updated (some [UpdateEntry.color 0, UpdateEntry.phys (mkRBS 5 0)])⟩,
      ballUpd 0 0]⟩,
    ⟨[carUpd 6]⟩, ⟨[carUpd 6]⟩, ⟨[carUpd 6]⟩, ⟨[carUpd 6]⟩,
    ⟨[carUpd 6, ballUpd 9 0]⟩],
   [0, 100], [ballClass, carClass], []⟩

/-- The physics map `get_physics` produces for `T1`. -/
def pmT1 : PhysMap :=
  [(0, [(EKey.ball, mkSnap 0 0)]), (5, [(EKey.ball, mkSnap 7 0)])]

/-- The physics map `get_physics` produces for `T4`. -/
def pmT4 : PhysMap :=
  [(1, [(EKey.ball, mkSnap 0 1)]), (2, [(EKey.ball, mkSnap 0 1)]),
   (3, [(EKey.ball, mkSnap 0 1)]), (4, [(EKey.ball, mkSnap 0 1)]),
   (5, [(EKey.ball, mkSnap 0 1)]), (6, [(EKey.ball, mkSnap 0 1)]),
   (7, [(EKey.ball, mkSnap 0 1)]), (8, [(EKey.ball, mkSnap 0 1)]),
   (9, [(EKey.ball, mkSnap 0 (-1))]), (10, [(EKey.ball, mkSnap 600000 0)])]

/-- The physics map `get_physics` produces for `T5`. -/
def pmT5 : PhysMap :=
  [(10, [(EKey.ball, mkSnap 0 1)]), (11, [(EKey.ball, mkSnap 0 1)]),
   (12, [(EKey.ball, mkSnap 0 1)]), (13, [(EKey.ball, mkSnap 0 1)]),
   (14, [(EKey.ball, mkSnap 0 1)]), (15, [(EKey.ball, mkSnap 0 1)]),
   (16, [(EKey.ball, mkSnap 0 1)]), (17, [(EKey.ball, mkSnap 0 1)]),
   (18, [(EKey.ball, mkSnap 0 1)]), (19, [(EKey.ball, mkSnap 0 1)]),
   (20, [(EKey.ball, mkSnap 0 1)]), (21, [(EKey.ball, mkSnap 0 1)]),
   (22, [(EKey.ball, mkSnap 0 1)]), (23, [(EKey.ball, mkSnap 0 1)]),
   (24, [(EKey.ball, mkSnap 0 1)]), (25, [(EKey.ball, mkSnap 600000 1)])]

/-- The physics map `get_physics` produces for `T6`: the back-filled frames 4
and 3 were inserted after frame 5 and carry frame 5's snapshot. -/
def pmT6 : PhysMap :=
  [(0, [(EKey.ball, mkSnap 0 0)]), (1, [(EKey.ball, mkSnap 0 0)]),
   (2, [(EKey.ball, mkSnap 0 0)]), (5, [(EKey.ball, mkSnap 600000 0)]),
   (4, [(EKey.ball, mkSnap 600000 0)]), (3, [(EKey.ball, mkSnap 600000 0)])]

/-- The physics map `get_physics` produces for `T7`: the ball actor of the
final epoch (spawned at the unvisited boundary, frame 2) is never tracked. -/
def pmT7 : PhysMap :=
  [(0, [(EKey.ball, mkSnap 0 0)]), (1, [(EKey.ball, mkSnap 0 0)])]

/-- The physics map `get_physics` produces for `TFeat`. -/
def pmFeat : PhysMap :=
  [(0, [(EKey.car 0 2, mkSnap 5 0), (EKey.ball, mkSnap 0 0)]),
   (1, [(EKey.car 0 2, mkSnap 6 0)]), (2, [(EKey.car 0 2, mkSnap 6 0)]),
   (3, [(EKey.car 0 2, mkSnap 6 0)]), (4, [(EKey.car 0 2, mkSnap 6 0)]),
   (5, [(EKey.car 0 2, mkSnap 6 0), (EKey.ball, mkSnap 9 0)])]

theorem alget_alset_self {α β : Type} [DecidableEq α] (l : List (α × β)) (a : α) (b : β) :
    alget (alset l a b) a = some b := by
  induction l with
  | nil => simp [alget, alset]
  | cons p rest ih =>
    obtain ⟨k, v⟩ := p
    by_cases h : k = a <;> simp [alset, alget, h, ih]

theorem alget_alset_ne {α β : Type} [DecidableEq α] (l : List (α × β)) (a a' : α) (b : β)
    (h : a' ≠ a) : alget (alset l a b) a' = alget l a' := by
  induction l with
  | nil => simp [alget, alset, Ne.symm h]
  | cons p rest ih =>
    obtain ⟨k, v⟩ := p
    by_cases hk : k = a
    · subst hk
      have hne : ¬ k = a' := fun hc => h hc.symm
      simp [alset, alget, hne]
    · simp [alset, alget, hk, ih]

theorem alget_mem {α β : Type} [DecidableEq α] (l : List (α × β)) (a : α) (b : β)
    (h : alget l a = some b) : (a, b) ∈ l := by
  induction l with
  | nil => simp [alget] at h
  | cons p rest ih =>
    obtain ⟨k, v⟩ := p
    by_cases hk : k = a
    · subst hk
      simp [alget] at h
      simp [h]
    · simp [alget, hk] at h
      simp [ih h]

theorem mem_alset {α β : Type} [DecidableEq α] (l : List (α × β)) (a : α) (b : β)
    (p : α × β) (h : p ∈ alset l a b) : p = (a, b) ∨ p ∈ l := by
  induction l with
  | nil => simpa [alset] using h
  | cons q rest ih =>
    obtain ⟨k, v⟩ := q
    by_cases hk : k = a
    · subst hk
      simp [alset] at h
      rcases h with h | h
      · exact Or.inl (by simp [h])
      · exact Or.inr (by simp [h])
    · simp [alset, hk] at h
      rcases h with h | h
      · exact Or.inr (by simp [h])
      · rcases ih h with h1 | h1
        · exact Or.inl h1
        · exact Or.inr (by simp [h1])

theorem pmGetK_pmSet_self (pm : PhysMap) (i : ℕ) (k : EKey) (s : Snap) :
    pmGetK (pmSet pm i k s) i k = some s := by
  simp [pmGetK, pmSet, alget_alset_self]

theorem pmGetK_pmSet_ne_frame (pm : PhysMap) (i i' : ℕ) (k k' : EKey) (s : Snap)
    (h : i' ≠ i) : pmGetK (pmSet pm i k s) i' k' = pmGetK pm i' k' := by
  simp [pmGetK, pmSet, alget_alset_ne _ _ _ _ h]

/-- CLAIM C9: calling `create_feature` on a frame index with no entry at all
in the physics map raises the lookup error to the caller (`none`); with a
valid scorer neither the missing-ball `None` path nor any fallback applies. -/
theorem create_feature_missing_frame (pm : PhysMap) (fuel frame : ℕ)
    (scorer : Option ℕ) (hsc : scorer = none ∨ scorer = some 0 ∨ scorer = some 1)
    (h : alget pm frame = none) :
    create_feature pm fuel frame scorer = none := by
  have hstep : ∀ r, featureStep pm frame scorer r = none := by
    intro r
    rcases hsc with h1 | h1 | h1 <;> subst h1 <;> simp [featureStep, scorerOk, h]
  cases fuel <;> simp [create_feature, hstep]

/-- Witness for C9 on the concrete `TFeat` physics: frame 17 has no entry. -/
theorem create_feature_missing_frame_witness :
    alget pmFeat 17 = none ∧ create_feature pmFeat 10 17 none = none :=
  ⟨by decide, create_feature_missing_frame pmFeat 10 17 none (Or.inl rfl) (by decide)⟩

/-- CLAIM C2 (amended): when the frame is present in the physics map but its
snapshot map has no ball entry, `create_feature` returns `None` (it does not
recurse to `frame + 1`; that fallback only fires for an oversized team
group). -/
theorem create_feature_no_ball (pm : PhysMap) (fuel frame : ℕ)
    (scorer : Option ℕ) (m : FrameMap)
    (hsc : scorer = none ∨ scorer = some 0 ∨ scorer = some 1)
    (hm : alget pm frame = some m) (hb : alget m EKey.ball = none) :
    create_feature pm fuel frame scorer = some none := by
  have hstep : ∀ r, featureStep pm frame scorer r = some none := by
    intro r
    rcases hsc with h1 | h1 | h1 <;> subst h1 <;> simp [featureStep, scorerOk, hm, hb]
  cases fuel <;> simp [create_feature, hstep]

/-- Witness for the amended C2 on `TFeat`: frame 4 holds only the car. -/
theorem create_feature_no_ball_witness :
    alget pmFeat 4 = some [(EKey.car 0 2, mkSnap 6 0)] ∧
    create_feature pmFeat 10 4 none = some none :=
  ⟨by decide,
   create_feature_no_ball pmFeat 10 4 none [(EKey.car 0 2, mkSnap 6 0)]
     (Or.inl rfl) (by decide) (by decide)⟩

/-- COUNTEREXAMPLE to C2 as stated: in `TFeat`'s physics, frame 4 is present
without a ball entry and frame 5 has one, yet `create_feature 4` returns
`None` instead of recursing and returning frame 5's feature (whose build
succeeds, so the two results differ). -/
theorem create_feature_no_ball_counterexample :
    get_physics TFeat = some pmFeat ∧
    alget pmFeat 4 = some [(EKey.car 0 2, mkSnap 6 0)] ∧
    create_feature pmFeat 10 4 none = some none ∧
    create_feature pmFeat 10 5 none ≠ some none ∧
    create_feature pmFeat 10 5 none ≠ none := by
  refine ⟨by decide, by decide, by decide, by decide, by decide⟩

theorem flattenAll_length (l : List Snap) : (flattenAll l).length = 13 * l.length := by
  induction l with
  | nil => rfl
  | cons s rest ih => simp [flattenAll, Snap.flatten, ih]; ring

theorem assembleFeature_length (m : FrameMap) (ballS : Snap) (scorer : Option ℕ)
    (h0 : (teamCars m 0).length ≤ 3) (h1 : (teamCars m 1).length ≤ 3) :
    (assembleFeature m ballS scorer).length = (scorerPart scorer).length + 91 := by
  simp [assembleFeature, flattenAll_length, Snap.flatten]
  omega

theorem featureStep_some_cases (pm : PhysMap) (frame : ℕ) (scorer : Option ℕ)
    (r : Option (Option (List ℚ))) (v : List ℚ)
    (h : featureStep pm frame scorer r = some (some v)) :
    r = some (some v) ∨ v.length = (scorerPart scorer).length + 91 := by
  cases hsc : scorerOk scorer with
  | false => simp [featureStep, hsc] at h
  | true =>
    cases hm : alget pm frame with
    | none => simp [featureStep, hsc, hm] at h
    | some m =>
      cases hb : alget m EKey.ball with
      | none => simp [featureStep, hsc, hm, hb] at h
      | some ballS =>
        by_cases hov : (teamCars m 0).length > 3 ∨ (teamCars m 1).length > 3
        · left
          simpa [featureStep, hsc, hm, hb, hov] using h
        · right
          simp only [featureStep, hsc, hm, hb, if_neg hov, Bool.not_true,
            Bool.false_eq_true, if_false] at h
          split at h
          · simp at h
          · obtain rfl : assembleFeature m ballS scorer = v := by
              simpa using h
            exact assembleFeature_length m ballS scorer (by omega) (by omega)

/-- CLAIM C8: whenever `create_feature` returns a vector, its length is
exactly 91 without a scorer and exactly 92 with one (any other assembled
length is diverted to the `return None` branch by the defensive check in the
definition, never raised). -/
theorem create_feature_length (fuel : ℕ) :
    ∀ (pm : PhysMap) (frame : ℕ) (scorer : Option ℕ) (v : List ℚ),
      create_feature pm fuel frame scorer = some (some v) →
      v.length = if scorer.isSome then 92 else 91 := by
  induction fuel with
  | zero =>
    intro pm frame scorer v h
    simp only [create_feature] at h
    rcases featureStep_some_cases _ _ _ _ _ h with h1 | h1
    · exact absurd h1 (by simp)
    · cases scorer <;> simpa [scorerPart] using h1
  | succ fuel ih =>
    intro pm frame scorer v h
    simp only [create_feature] at h
    rcases featureStep_some_cases _ _ _ _ _ h with h1 | h1
    · exact ih _ _ _ _ h1
    · cases scorer <;> simpa [scorerPart] using h1

/-- The labeled feature vector `create_feature` builds at frame 0 of
`TFeat`'s physics. -/
def vFeat : List ℚ :=
  [1] ++ (mkSnap 0 0).flatten ++ (mkSnap 5 0).flatten
    ++ List.replicate 26 0 ++ List.replicate 39 0

/-- Witness for C8 on `TFeat`: a labeled feature of length 92. -/
theorem create_feature_length_witness :
    create_feature pmFeat 10 0 (some 1) = some (some vFeat) ∧
    vFeat.length = if (some 1 : Option ℕ).isSome then 92 else 91 :=
  ⟨by decide, create_feature_length 10 pmFeat 0 (some 1) vFeat (by decide)⟩

theorem kickoffLoop_empty_none (fuel : ℕ) : ∀ (w : ℕ) (cr : Bool),
    kickoffLoop [] fuel w cr = none := by
  induction fuel with
  | zero => intro w cr; rfl
  | succ fuel ih =>
    intro w cr
    simp [kickoffLoop, framePresent, alget, ih]
    exact ⟨0, by omega⟩

/-- CLAIM C3: `find_kickoffs` does NOT terminate on every trace and raises
no error: on `T3` (whose physics map is empty, so no ten-frame all-present
window ever exists) the scan from the implicit goal frame 0 returns no
result for any fuel bound, i.e. the unbounded Python `while` loop never
terminates, instead of failing with a dedicated error. -/
theorem find_kickoffs_diverges :
    get_physics T3 = some [] ∧
    ∀ fuel : ℕ, find_kickoffs [] T3.marks fuel = none := by
  refine ⟨by decide, fun fuel => ?_⟩
  simp [find_kickoffs, find_goals, goalMarks, T3, kickoffLoop_empty_none]

theorem interpFill_succ (pm : PhysMap) (i : ℕ) (k : EKey) (s : Snap) (num : ℕ) :
    interpFill pm i k s (num + 1) = pmSet (interpFill pm i k s num) (i - 1 - num) k s := by
  simp [interpFill, List.range_succ]

theorem interpFill_get (pm : PhysMap) (i : ℕ) (k : EKey) (s : Snap) :
    ∀ (num m : ℕ), 1 ≤ m → m ≤ num → num + 1 ≤ i →
      pmGetK (interpFill pm i k s num) (i - m) k = some s := by
  intro num
  induction num with
  | zero => intro m h1 h2 _; omega
  | succ num ih =>
    intro m h1 h2 hi
    rw [interpFill_succ]
    by_cases hm : m = num + 1
    · have he : i - m = i - 1 - num := by omega
      rw [he, pmGetK_pmSet_self]
    · have hne : i - m ≠ i - 1 - num := by omega
      rw [pmGetK_pmSet_ne_frame _ _ _ _ _ _ hne]
      exact ih m h1 (by omega) (by omega)

/-- CLAIM C1 (amended): for a snapshot just stored at `(i, k)` whose
preceding gap (frames with no snapshot for `k`) has length `g ≥ 1`, the
interpolation step back-fills every gap frame with that snapshot exactly
when `g ≤ 3` and the frame before the gap has a snapshot; when `g ≥ 4` it
changes nothing.  All back-filled frames have index at least 1, so frame 0
is never interpolated backward. -/
theorem interpStep_gap (pm : PhysMap) (i : ℕ) (k : EKey) (s : Snap) (g : ℕ)
    (hg : 1 ≤ g)
    (habs : ∀ m, 1 ≤ m → m ≤ g → probe pm k i m = false) :
    (g ≤ 3 → probe pm k i (g + 1) = true →
      ∀ m, 1 ≤ m → m ≤ g →
        1 ≤ i - m ∧ pmGetK (interpStep pm i k s) (i - m) k = some s) ∧
    (4 ≤ g → interpStep pm i k s = pm) := by
  by_cases hi : i = 0
  · subst hi
    constructor
    · intro _ hpr
      simp [probe] at hpr
    · intro _
      simp [interpStep]
  · have hi1 : 1 ≤ i := by omega
    have h1 := habs 1 (by omega) hg
    have hget1 : (pmGetK pm (i - 1) k).isSome = false := by
      simpa [probe, hi1] using h1
    have hstep : interpStep pm i k s = interpScanAux pm i k s 4 1 := by
      simp [interpStep, hi, hget1]
    constructor
    · intro hg3 hpr m hm1 hm2
      have hgi : g + 1 ≤ i := by
        have hx := hpr
        simp [probe, Bool.and_eq_true] at hx
        exact hx.1
      refine ⟨by omega, ?_⟩
      interval_cases g
      · have hfill : interpStep pm i k s = interpFill pm i k s 1 := by
          rw [hstep]; simp [interpScanAux, h1, hpr]
        have hm : m = 1 := by omega
        subst hm
        rw [hfill]
        exact interpFill_get pm i k s 1 1 le_rfl le_rfl (by omega)
      · have h2 := habs 2 (by omega) (by omega)
        have hfill : interpStep pm i k s = interpFill pm i k s 2 := by
          rw [hstep]; simp [interpScanAux, h1, h2, hpr]
        rw [hfill]
        exact interpFill_get pm i k s 2 m hm1 hm2 (by omega)
      · have h2 := habs 2 (by omega) (by omega)
        have h3 := habs 3 (by omega) (by omega)
        have hfill : interpStep pm i k s = interpFill pm i k s 3 := by
          rw [hstep]; simp [interpScanAux, h1, h2, h3, hpr]
        rw [hfill]
        exact interpFill_get pm i k s 3 m hm1 hm2 (by omega)
    · intro hg4
      have h2 := habs 2 (by omega) (by omega)
      have h3 := habs 3 (by omega) (by omega)
      have h4 := habs 4 (by omega) (by omega)
      rw [hstep]
      simp [interpScanAux, h1, h2, h3, h4]

/-- COUNTEREXAMPLE to C1 as stated: in `T1`'s physics the ball has
snapshots at frames 0 and 5 and a gap of length 4 at frames 1-4 (within the
claimed fill range 1-4), yet none of the gap frames is back-filled. -/
theorem interpolation_gap4_counterexample :
    get_physics T1 = some pmT1 ∧
    pmGetK pmT1 0 EKey.ball = some (mkSnap 0 0) ∧
    pmGetK pmT1 5 EKey.ball = some (mkSnap 7 0) ∧
    pmGetK pmT1 1 EKey.ball = none ∧ pmGetK pmT1 2 EKey.ball = none ∧
    pmGetK pmT1 3 EKey.ball = none ∧ pmGetK pmT1 4 EKey.ball = none := by
  exact ⟨by decide, by decide, by decide, by decide, by decide, by decide, by decide⟩

/-- Physics map used to witness the amended interpolation theorem: a gap of
length 3 at frames 1-3, bounded by snapshots at frames 0 and 4. -/
def pmW : PhysMap :=
  [(0, [(EKey.ball, mkSnap 0 0)]), (4, [(EKey.ball, mkSnap 7 0)])]

/-- Witness for the amended C1 on `pmW`: the gap frame 1 is back-filled with
frame 4's snapshot. -/
theorem interpStep_gap_witness :
    1 ≤ (4 : ℕ) - 3 ∧
    pmGetK (interpStep pmW 4 EKey.ball (mkSnap 7 0)) (4 - 3) EKey.ball =
      some (mkSnap 7 0) :=
  (interpStep_gap pmW 4 EKey.ball (mkSnap 7 0) 3 (by omega)
      (fun m h1 h2 => by interval_cases m <;> decide)).1
    (by omega) (by decide) 3 (by omega) (by omega)

theorem alget_alset_isSome {α β : Type} [DecidableEq α] (l : List (α × β))
    (a a' : α) (b : β) (h : (alget l a).isSome = true) :
    (alget (alset l a' b) a).isSome = true := by
  by_cases he : a = a'
  · subst he
    rw [alget_alset_self]
    rfl
  · rw [alget_alset_ne l a' a b he]
    exact h

/-- CLAIM C6 (amended): for each goal mark (taken in the trace's mark-list
order), the first frame of `possible_goals` IN THE PHYSICS MAP'S ITERATION
ORDER that is `≥` the mark's frame — when one exists — appears as a goal
frame in the result; conversely every result entry's frame is such a
first-in-iteration-order candidate of a goal mark, is never before that
mark's frame, and its label is that mark's scoring side (1 exactly for
`'Team1Goal'`; when several marks select the same frame the stored label is
the side of one of them, the last in practice).  The selected frame need
not be the SMALLEST candidate `≥` the mark's frame, because the
interpolation pass can insert back-filled frames out of ascending order. -/
theorem find_goals_spec (pm : PhysMap) (marks : List Mark) :
    (∀ p ∈ find_goals pm marks, ∃ m, m ∈ goalMarks marks ∧
        (possibleGoals pm).find? (fun g => decide (g ≥ m.frame)) = some p.1 ∧
        p.2 = (if m.value = "Team1Goal" then 1 else 0) ∧
        p.1 ≥ m.frame) ∧
    (∀ m ∈ goalMarks marks, ∀ g,
        (possibleGoals pm).find? (fun x => decide (x ≥ m.frame)) = some g →
        ∃ tm m2, alget (find_goals pm marks) g = some tm ∧
          m2 ∈ goalMarks marks ∧
          (possibleGoals pm).find? (fun x => decide (x ≥ m2.frame)) = some g ∧
          tm = (if m2.value = "Team1Goal" then 1 else 0)) := by
  have key : ∀ (ms : List Mark) (acc : List (ℕ × ℕ)),
      (∀ m ∈ ms, m ∈ goalMarks marks) →
      (∀ p ∈ acc, ∃ m, m ∈ goalMarks marks ∧
        (possibleGoals pm).find? (fun g => decide (g ≥ m.frame)) = some p.1 ∧
        p.2 = (if m.value = "Team1Goal" then 1 else 0) ∧
        p.1 ≥ m.frame) →
      ∀ p ∈ ms.foldl (fun acc m =>
          match (possibleGoals pm).find? (fun g => decide (g ≥ m.frame)) with
          | some g => alset acc g (if m.value = "Team1Goal" then 1 else 0)
          | none => acc) acc,
        ∃ m, m ∈ goalMarks marks ∧
          (possibleGoals pm).find? (fun g => decide (g ≥ m.frame)) = some p.1 ∧
          p.2 = (if m.value = "Team1Goal" then 1 else 0) ∧
          p.1 ≥ m.frame := by
    intro ms
    induction ms with
    | nil => intro acc _ hacc p hp; exact hacc p hp
    | cons m ms ih =>
      intro acc hms hacc p hp
      simp only [List.foldl_cons] at hp
      refine ih _ (fun x hx => hms x (by simp [hx])) ?_ p hp
      intro p hp
      cases hf : (possibleGoals pm).find? (fun g => decide (g ≥ m.frame)) with
      | none =>
        rw [hf] at hp
        exact hacc p hp
      | some g =>
        rw [hf] at hp
        rcases mem_alset _ _ _ _ hp with rfl | hmem
        · refine ⟨m, hms m (by simp), ?_, rfl, ?_⟩
          · simpa using hf
          · have := List.find?_some hf
            simpa using this
        · exact hacc p hmem
  have presence : ∀ (ms : List Mark),
      ∀ (acc : List (ℕ × ℕ)) (g : ℕ),
        ((alget acc g).isSome = true ∨
          ∃ m ∈ ms, (possibleGoals pm).find? (fun x => decide (x ≥ m.frame)) = some g) →
        (alget (ms.foldl (fun acc m =>
            match (possibleGoals pm).find? (fun g => decide (g ≥ m.frame)) with
            | some g => alset acc g (if m.value = "Team1Goal" then 1 else 0)
            | none => acc) acc) g).isSome = true := by
    intro ms
    induction ms with
    | nil =>
      intro acc g h
      rcases h with h | ⟨m, hm, _⟩
      · simpa using h
      · simp at hm
    | cons m ms ih =>
      intro acc g h
      simp only [List.foldl_cons]
      rcases h with h | ⟨m1, hm1, hfind⟩
      · apply ih
        left
        cases hf : (possibleGoals pm).find? (fun x => decide (x ≥ m.frame)) with
        | none => simpa [hf] using h
        | some g0 =>
          simp only [hf]
          exact alget_alset_isSome acc g g0 _ h
      · rcases List.mem_cons.1 hm1 with rfl | hm1'
        · apply ih
          left
          simp only [hfind]
          rw [alget_alset_self]
          rfl
        · exact ih _ g (Or.inr ⟨m1, hm1', hfind⟩)
  constructor
  · intro p hp
    exact key (goalMarks marks) [] (fun m hm => hm) (by simp) p hp
  · intro m hm g hfind
    have hpres : (alget (find_goals pm marks) g).isSome = true :=
      presence (goalMarks marks) [] g (Or.inr ⟨m, hm, hfind⟩)
    cases htm : alget (find_goals pm marks) g with
    | none =>
      rw [htm] at hpres
      simp at hpres
    | some tm =>
      have hmem := alget_mem _ _ _ htm
      obtain ⟨m2, hm2, hf2, hlbl, _⟩ :=
        key (goalMarks marks) [] (fun x hx => hx) (by simp) (g, tm) hmem
      exact ⟨tm, m2, rfl, hm2, hf2, hlbl⟩

/-- Witness for the amended C6 on `T6`'s physics: the mark at frame 3
contributes goal frame 5 (its first iteration-order candidate), labeled
with a selecting mark's side. -/
theorem find_goals_spec_witness :
    ∃ tm m2, alget (find_goals pmT6 T6.marks) 5 = some tm ∧
      m2 ∈ goalMarks T6.marks ∧
      (possibleGoals pmT6).find? (fun x => decide (x ≥ m2.frame)) = some 5 ∧
      tm = (if m2.value = "Team1Goal" then 1 else 0) :=
  (find_goals_spec pmT6 T6.marks).2 ⟨3, "Team0Goal"⟩ (by decide) 5 (by decide)

/-- COUNTEREXAMPLE to C6 as stated: in `T6` the goal-line candidates iterate
as `[5, 4, 3]` (frames 4 and 3 were back-filled after frame 5), the only
mark is at frame 3, and `find_goals` selects frame 5 even though 3 is the
smallest candidate `≥ 3`. -/
theorem find_goals_order_counterexample :
    get_physics T6 = some pmT6 ∧
    possibleGoals pmT6 = [5, 4, 3] ∧
    goalMarks T6.marks = [⟨3, "Team0Goal"⟩] ∧
    find_goals pmT6 T6.marks = [(5, 0)] ∧
    3 ∈ possibleGoals pmT6 ∧ 3 ≥ 3 ∧ (3 : ℕ) < 5 := by
  exact ⟨by decide, by decide, by decide, by decide, by decide, by decide, by decide⟩

theorem ffIdx_spec : ∀ (l : List Bool) (k : ℕ), ffIdx l = some k →
    l.get? k = some false ∧ ∀ j < k, l.get? j = some true := by
  intro l
  induction l with
  | nil => intro k h; simp [ffIdx] at h
  | cons b rest ih =>
    intro k h
    cases b with
    | false =>
      simp [ffIdx] at h
      subst h
      exact ⟨rfl, fun j hj => absurd hj (by omega)⟩
    | true =>
      simp [ffIdx] at h
      obtain ⟨k', hk', rfl⟩ := h
      obtain ⟨h1, h2⟩ := ih k' hk'
      refine ⟨by simpa using h1, ?_⟩
      intro j hj
      cases j with
      | zero => rfl
      | succ j => simpa using h2 j (by omega)

theorem ffIdx_none_iff (l : List Bool) :
    ffIdx l = none ↔ l.all (fun b => b) = true := by
  induction l with
  | nil => simp [ffIdx]
  | cons b rest ih => cases b <;> simp [ffIdx, ih]

/-- CLAIM C4 (amended): for a threshold in `[0,1]` and a nonempty attacking
sequence, `find_window_size` returns the LAST index when every running mean
strictly exceeds the threshold, and otherwise the FIRST (nearest-to-goal)
index whose running mean is `≤` the threshold — not the furthest-back index
whose running mean is still `≥` the threshold.  The possession-interval
start is the goal frame minus this index. -/
theorem find_window_size_spec (arr : List Bool) (q : ℚ)
    (h0 : 0 ≤ q) (h1 : q ≤ 1) (hne : arr ≠ []) :
    (find_window_size arr q).isSome = true ∧
    ∀ k, find_window_size arr q = some k →
      ((∀ j < arr.length, meanPref arr j > q) ∧ k = arr.length - 1) ∨
      (k < arr.length ∧ meanPref arr k ≤ q ∧ ∀ j < k, meanPref arr j > q) := by
  have hq : ¬ (q < 0 ∨ 1 < q) := by
    push_neg
    exact ⟨h0, h1⟩
  have hie : arr.isEmpty = false := by
    cases arr with
    | nil => exact absurd rfl hne
    | cons a l => rfl
  have hflag : ∀ j, j < arr.length →
      ((List.range arr.length).map fun j => decide (meanPref arr j > q)).get? j =
        some (decide (meanPref arr j > q)) := by
    intro j hj
    rw [List.get?_map, List.get?_range hj]
    rfl
  simp only [find_window_size, if_neg hq, hie, Bool.false_eq_true, if_false]
  cases hall : ((List.range arr.length).map fun j => decide (meanPref arr j > q)).all
      (fun b => b) with
  | true =>
    refine ⟨by simp [hall], fun k hk => Or.inl ⟨?_, by simpa [hall] using hk.symm⟩⟩
    intro j hj
    have hmem : decide (meanPref arr j > q) ∈
        (List.range arr.length).map fun j => decide (meanPref arr j > q) :=
      List.mem_map_of_mem _ (List.mem_range.2 hj)
    have := (List.all_eq_true.1 hall) _ hmem
    exact of_decide_eq_true this
  | false =>
    have hnone : ffIdx ((List.range arr.length).map fun j => decide (meanPref arr j > q)) ≠ none := by
      rw [Ne, ffIdx_none_iff, hall]
      simp
    cases hfi : ffIdx ((List.range arr.length).map fun j => decide (meanPref arr j > q)) with
    | none => exact absurd hfi hnone
    | some k0 =>
      obtain ⟨hk0, hlt⟩ := ffIdx_spec _ _ hfi
      have hk0len : k0 < arr.length := by
        have := List.get?_eq_some.1 hk0
        simpa using this.1
      refine ⟨by simp [hall, hfi], fun k hk => Or.inr ?_⟩
      have hkk : k = k0 := by
        simpa [hall, hfi] using hk.symm
      subst hkk
      refine ⟨hk0len, ?_, ?_⟩
      · have := hflag k hk0len
        rw [this] at hk0
        have : decide (meanPref arr k > q) = false := by simpa using hk0
        exact not_lt.1 (of_decide_eq_false this)
      · intro j hj
        have hjlen : j < arr.length := by omega
        have := hlt j hj
        rw [hflag j hjlen] at this
        exact of_decide_eq_true (by simpa using this)

/-- Witness for the amended C4 at the sequence `[true, false]` and
threshold `1/2`. -/
theorem find_window_size_spec_witness :
    (0 : ℚ) ≤ 1/2 ∧ (1/2 : ℚ) ≤ 1 ∧ ([true, false] ≠ ([] : List Bool)) ∧
    (find_window_size [true, false] (1/2)).isSome = true :=
  ⟨by norm_num, by norm_num, by decide,
   (find_window_size_spec [true, false] (1/2) (by norm_num) (by norm_num)
      (by decide)).1⟩

/-- The attacking-flag sequence of `T4`'s single goal, nearest-to-goal
first. -/
def arrT4 : List Bool :=
  [true, false, true, true, true, true, true, true, true, true]

/-- COUNTEREXAMPLE to C4 as stated: in `T4` (threshold `1/2`) the backward
scan's flags are `arrT4`; the furthest-back index whose running mean is
still `≥ 1/2` is 9 (mean `9/10`), i.e. frame 1, but the returned interval is
`(9, 10)`, starting only one frame before the goal (the first index whose
mean drops to `≤ 1/2`). -/
theorem poss_intervals_window_counterexample :
    get_physics T4 = some pmT4 ∧
    find_goals pmT4 T4.marks = [(10, 0)] ∧
    lastKickoff pmT4 10 = some 0 ∧
    (collectBall pmT4 (descFrames 10 0)).map (fun ps => attackFlags ps 0) =
      some arrT4 ∧
    poss_intervals pmT4 T4.marks (1/2) = some [(9, 10)] ∧
    meanPref arrT4 9 ≥ 1/2 ∧ arrT4.length = 10 ∧ (9 : ℕ) ≠ 10 - 9 := by
  exact ⟨by decide, by decide, by decide, by decide,
    by with_unfolding_all decide, by with_unfolding_all decide, by decide, by decide⟩

theorem max?_eq_some_of_mem_of_le (l : List ℕ) (a : ℕ) (ha : a ∈ l)
    (hb : ∀ x ∈ l, x ≤ a) : l.max? = some a := by
  rw [List.max?_eq_some_iff Nat.le_refl (fun a b => max_choice a b)
    (fun a b c => max_le_iff)]
  exact ⟨ha, hb⟩

theorem le_of_mem_of_max? (l : List ℕ) (mx a : ℕ) (h : l.max? = some mx)
    (ha : a ∈ l) : a ≤ mx := by
  rw [List.max?_eq_some_iff Nat.le_refl (fun a b => max_choice a b)
    (fun a b c => max_le_iff)] at h
  exact h.2 a ha

theorem framePresent_of_pmGetK (pm : PhysMap) (f : ℕ) (k : EKey)
    (h : (pmGetK pm f k).isSome = true) : framePresent pm f = true := by
  unfold pmGetK at h
  unfold framePresent
  cases halget : alget pm f with
  | none => rw [halget] at h; simp at h
  | some m => simp

theorem lastKickoff_eq (pm : PhysMap) (g k : ℕ)
    (hk1 : 1 ≤ k) (hkg : k ≤ g)
    (hpres : ∀ f, k ≤ f → f ≤ g → framePresent pm f = true)
    (habs : framePresent pm (k - 1) = false) :
    lastKickoff pm g = some (k - 1) := by
  have hgp : framePresent pm g = true := hpres g hkg le_rfl
  have hgm : g ∈ pm.map Prod.fst := by
    unfold framePresent at hgp
    cases halget : alget pm g with
    | none => rw [halget] at hgp; simp at hgp
    | some m => exact List.mem_map_of_mem _ (alget_mem pm g m halget)
  cases hmx : (pm.map Prod.fst).max? with
  | none =>
    rw [List.max?_eq_none_iff] at hmx
    rw [hmx] at hgm
    simp at hgm
  | some mx =>
    have hgmx : g ≤ mx := le_of_mem_of_max? _ mx g hmx hgm
    have hfil : ((List.range mx).filter
        (fun f => !framePresent pm f && decide (f < g))).max? = some (k - 1) := by
      apply max?_eq_some_of_mem_of_le
      · rw [List.mem_filter]
        refine ⟨List.mem_range.2 (by omega), ?_⟩
        simp [habs]
        omega
      · intro x hx
        rw [List.mem_filter] at hx
        obtain ⟨_, hx2⟩ := hx
        simp [Bool.and_eq_true] at hx2
        obtain ⟨hxab, hxg⟩ := hx2
        by_contra hlt
        push_neg at hlt
        have : framePresent pm x = true := hpres x (by omega) (by omega)
        rw [this] at hxab
        exact absurd hxab (by simp)
    simp only [lastKickoff, Option.bind_eq_bind, hmx, Option.some_bind, hfil]

theorem collectBall_all_present (pm : PhysMap) :
    ∀ fs : List ℕ, (∀ f ∈ fs, (pmGetK pm f EKey.ball).isSome = true) →
      ∃ pairs : List (ℚ × ℚ), collectBall pm fs = some pairs ∧
        pairs.length = fs.length ∧
        pairs.head? = (fs.head?.bind (fun f => pmGetK pm f EKey.ball)).map
          (fun s => (s.loc.y, s.lv.y)) := by
  intro fs
  induction fs with
  | nil => exact fun _ => ⟨[], rfl, rfl, rfl⟩
  | cons f rest ih =>
    intro hall
    have hf := hall f (by simp)
    cases hm : alget pm f with
    | none => simp [pmGetK, hm] at hf
    | some m =>
      cases hs : alget m EKey.ball with
      | none => simp [pmGetK, hm, hs] at hf
      | some s =>
        obtain ⟨pairs, h1, h2, _⟩ := ih (fun x hx => hall x (by simp [hx]))
        refine ⟨(s.loc.y, s.lv.y) :: pairs, ?_, by simp [h2], ?_⟩
        · simp [collectBall, hm, hs, h1]
        · simp [pmGetK, hm, hs]

theorem meanPref_pos_of_head (b : List Bool) (hd : b.head? = some true) (j : ℕ) :
    meanPref b j > 0 := by
  cases b with
  | nil => simp at hd
  | cons x rest =>
    obtain rfl : x = true := by simpa using hd
    unfold meanPref
    apply div_pos
    · have he : (true :: rest).take (j + 1) = true :: rest.take j := rfl
      rw [he]
      have hc : 0 < (true :: rest.take j).count true := by
        simp [List.count_cons]
      exact_mod_cast hc
    · positivity

theorem find_window_size_head_true (arr : List Bool) (hd : arr.head? = some true) :
    find_window_size arr 0 = some (arr.length - 1) := by
  have hq : ¬ ((0 : ℚ) < 0 ∨ 1 < (0 : ℚ)) := by norm_num
  have hie : arr.isEmpty = false := by
    cases arr with
    | nil => simp at hd
    | cons a l => rfl
  have hall : ((List.range arr.length).map
      fun j => decide (meanPref arr j > 0)).all (fun b => b) = true := by
    rw [List.all_eq_true]
    intro x hx
    rw [List.mem_map] at hx
    obtain ⟨j, _, rfl⟩ := hx
    exact decide_eq_true (meanPref_pos_of_head arr hd j)
  simp [find_window_size, hq, hie, hall]

theorem attackFlags_length (pairs : List (ℚ × ℚ)) (tm : ℕ) :
    (attackFlags pairs tm).length = pairs.length := by
  unfold attackFlags
  by_cases ht : tm = 1 <;> simp [ht]

theorem attackFlags_head (pairs : List (ℚ × ℚ)) (tm : ℕ) (p : ℚ × ℚ)
    (hd : pairs.head? = some p)
    (hp : (if tm = 1 then -p.1 else p.1) > 170000 ∨
          (if tm = 1 then -p.2 else p.2) > 0) :
    (attackFlags pairs tm).head? = some true := by
  by_cases ht : tm = 1
  · rw [if_pos ht] at hp
    rw [if_pos ht] at hp
    have hform : attackFlags pairs tm = (pairs.map (fun r => (-r.1, -r.2))).map
        (fun r => decide (r.1 > 170000) || decide (r.2 > 0)) := by
      unfold attackFlags
      rw [if_pos ht]
    rw [hform, List.head?_map, List.head?_map, hd]
    simp only [Option.map_some']
    rcases hp with hp | hp
    · simp only [Option.some_inj, Bool.or_eq_true, decide_eq_true_eq]
      left
      linarith
    · simp only [Option.some_inj, Bool.or_eq_true, decide_eq_true_eq]
      right
      linarith
  · rw [if_neg ht] at hp
    rw [if_neg ht] at hp
    have hform : attackFlags pairs tm = pairs.map
        (fun r => decide (r.1 > 170000) || decide (r.2 > 0)) := by
      unfold attackFlags
      rw [if_neg ht]
    rw [hform, List.head?_map, hd]
    simp only [Option.map_some']
    rcases hp with hp | hp
    · simp only [Option.some_inj, Bool.or_eq_true, decide_eq_true_eq]
      left
      linarith
    · simp only [Option.some_inj, Bool.or_eq_true, decide_eq_true_eq]
      right
      linarith

theorem descFrames_eq_cons (g lk : ℕ) (h : lk < g) :
    descFrames g lk = g :: (List.range' (lk + 1) (g - lk - 1)).reverse := by
  unfold descFrames
  obtain ⟨n, hn⟩ : ∃ n, g - lk = n + 1 := ⟨g - lk - 1, by omega⟩
  rw [hn, List.range'_concat]
  have he : lk + 1 + 1 * n = g := by omega
  rw [List.reverse_append, he]
  simp

theorem mem_descFrames (g lk f : ℕ) (hf : f ∈ descFrames g lk) :
    lk + 1 ≤ f ∧ f ≤ g := by
  unfold descFrames at hf
  rw [List.mem_reverse, List.mem_range'] at hf
  obtain ⟨i, hi, rfl⟩ := hf
  omega

theorem descFrames_length (g lk : ℕ) : (descFrames g lk).length = g - lk := by
  simp [descFrames]

/-- CLAIM C5 (amended): with threshold 0 the possession interval of a
detected goal `g` starts at the kickoff frame `k` ITSELF (not `k + 1`),
whenever the `find_kickoffs` scan resolves `k` from the preceding goal,
every frame from `k` to `g` carries a ball snapshot, the frame before the
kickoff is absent from the physics map, and the ball at the goal frame
satisfies the attacking predicate. -/
theorem goalInterval_threshold0 (pm : PhysMap) (g k tm gPrev fuel : ℕ) (sg : Snap)
    (_hk : kickoffLoop pm fuel gPrev false = some k)
    (hk1 : 1 ≤ k) (hkg : k ≤ g)
    (hball : ∀ f, k ≤ f → f ≤ g → (pmGetK pm f EKey.ball).isSome = true)
    (habs : framePresent pm (k - 1) = false)
    (hsg : pmGetK pm g EKey.ball = some sg)
    (hflag : (if tm = 1 then -sg.loc.y else sg.loc.y) > 170000 ∨
             (if tm = 1 then -sg.lv.y else sg.lv.y) > 0) :
    goalInterval pm (g, tm) 0 = some (k, g) := by
  have hlk : lastKickoff pm g = some (k - 1) :=
    lastKickoff_eq pm g k hk1 hkg
      (fun f h1 h2 => framePresent_of_pmGetK pm f EKey.ball (hball f h1 h2)) habs
  have hmem : ∀ f ∈ descFrames g (k - 1), (pmGetK pm f EKey.ball).isSome = true := by
    intro f hf
    obtain ⟨h1, h2⟩ := mem_descFrames g (k - 1) f hf
    exact hball f (by omega) h2
  obtain ⟨pairs, hcb, hlen, hhd⟩ := collectBall_all_present pm (descFrames g (k - 1)) hmem
  have hhd' : pairs.head? = some (sg.loc.y, sg.lv.y) := by
    rw [hhd, descFrames_eq_cons g (k - 1) (by omega)]
    simp [hsg]
  have hfhd : (attackFlags pairs tm).head? = some true :=
    attackFlags_head pairs tm (sg.loc.y, sg.lv.y) hhd' hflag
  have hfws : find_window_size (attackFlags pairs tm) 0 =
      some ((attackFlags pairs tm).length - 1) :=
    find_window_size_head_true _ hfhd
  have hlen' : (attackFlags pairs tm).length = g - k + 1 := by
    rw [attackFlags_length, hlen, descFrames_length]
    omega
  have hfin : g - ((attackFlags pairs tm).length - 1) = k := by
    rw [attackFlags_length, hlen, descFrames_length]
    omega
  simp only [goalInterval, Option.bind_eq_bind, hlk, Option.some_bind, hcb, hfws,
    hfin]
  rfl

/-- Witness for the amended C5 on `T5`: the kickoff scan resolves frame 10
and the threshold-0 interval for the goal at frame 25 is `(10, 25)`. -/
theorem goalInterval_threshold0_witness :
    kickoffLoop pmT5 20 0 false = some 10 ∧
    goalInterval pmT5 (25, 0) 0 = some (10, 25) :=
  ⟨by decide,
   goalInterval_threshold0 pmT5 25 10 0 0 20 (mkSnap 600000 1) (by decide)
     (by omega) (by omega)
     (fun f h1 h2 => by interval_cases f <;> decide)
     (by decide) (by decide)
     (Or.inl (by norm_num [mkSnap]))⟩

/-- COUNTEREXAMPLE to C5 as stated: in `T5` `find_kickoffs` resolves kickoff
frame 10 for the goal at 25, and `poss_intervals` with threshold 0 returns
the interval `(10, 25)` — its start is the kickoff frame itself, not
kickoff + 1 = 11. -/
theorem poss_intervals_threshold0_counterexample :
    get_physics T5 = some pmT5 ∧
    find_goals pmT5 T5.marks = [(25, 0)] ∧
    find_kickoffs pmT5 T5.marks 20 = some [(0, 10)] ∧
    poss_intervals pmT5 T5.marks 0 = some [(10, 25)] ∧
    (10 : ℕ) ≠ 10 + 1 := by
  exact ⟨by decide, by decide, by decide, by with_unfolding_all decide, by decide⟩

theorem get?_eq_some_getD (l : List ℕ) (n : ℕ) (h : n < l.length) :
    l.get? n = some (l.getD n 0) := by
  rw [List.getD_eq_get?]
  cases hg : l.get? n with
  | none =>
    rw [List.get?_eq_none] at hg
    omega
  | some a => simp

theorem chain_lt_getD (kf : List ℕ) (h : List.Chain' (· < ·) kf) (j : ℕ)
    (hj : j + 1 < kf.length) : kf.getD j 0 < kf.getD (j + 1) 0 := by
  have hc := List.chain'_iff_get.1 h j (by omega)
  rw [List.getD_eq_get?, List.getD_eq_get?,
    List.get?_eq_get (show j < kf.length by omega),
    List.get?_eq_get (show j + 1 < kf.length by omega)]
  simpa using hc

theorem epochStep_cases (t : Trace) (i : ℕ) (st st' : PState)
    (h : epochStep t true true i st = some st') :
    (st.pointer + 1 ≠ t.key_frames.length ∧ t.key_frames.get? st.pointer = some i ∧
      st'.pointer = st.pointer + 1 ∧ st'.visited = st.visited ++ [i] ∧
      st'.out = st.out) ∨
    (¬ (st.pointer + 1 ≠ t.key_frames.length ∧
        t.key_frames.get? st.pointer = some i) ∧ st' = st) := by
  unfold epochStep at h
  split at h
  · rename_i hcond
    left
    simp only [Option.bind_eq_bind] at h
    cases hb : get_ids t ballClass i with
    | none => simp [hb] at h
    | some bl =>
      cases hc : get_ids t carClass i with
      | none => simp [hb, hc] at h
      | some cl =>
        cases htm : find_teams t i with
        | none => simp [hb, hc, htm] at h
        | some tm =>
          simp only [hb, hc, htm, if_true, Option.some_bind, Option.pure_def,
            Option.some_inj] at h
          refine ⟨hcond.1, hcond.2, ?_, ?_, ?_⟩ <;> rw [← h]
  · rename_i hcond
    right
    simp only [Option.pure_def, Option.some_inj] at h
    exact ⟨hcond, h.symm⟩

/-- Invariant of `get_physics`'s epoch cursor before processing frame `i`:
the visited boundaries are the first `pointer` key frames, the pointer never
passes the last key frame, all visited boundaries lie strictly below `i`,
and (unless the pointer is already at the last key frame) the boundary it
points at has not been passed. -/
def cursorInv (kf : List ℕ) (i p : ℕ) (v : List ℕ) : Prop :=
  v = kf.take p ∧ p + 1 ≤ kf.length ∧
  (∀ j, j < p → kf.getD j 0 < i) ∧
  (p + 1 < kf.length → i ≤ kf.getD p 0)

theorem cursorInv_step (t : Trace) (i : ℕ) (st st1 : PState)
    (hasc : ∀ j, j + 1 < t.key_frames.length →
      t.key_frames.getD j 0 < t.key_frames.getD (j + 1) 0)
    (he : epochStep t true true i st = some st1)
    (hinv : cursorInv t.key_frames i st.pointer st.visited) :
    cursorInv t.key_frames (i + 1) st1.pointer st1.visited := by
  obtain ⟨hv0, hplen, hlt, hub⟩ := hinv
  rcases epochStep_cases t i st st1 he with ⟨hne, hget, hp, hv, _⟩ | ⟨hcond, heq⟩
  · have hplt : st.pointer < t.key_frames.length := by omega
    have hgd : t.key_frames.getD st.pointer 0 = i := by
      rw [get?_eq_some_getD _ _ hplt] at hget
      simpa using hget
    refine ⟨?_, by omega, ?_, ?_⟩
    · rw [hv, hp, hv0, List.take_succ, ← List.get?_eq_getElem?, hget]
      rfl
    · intro j hj
      rw [hp] at hj
      by_cases hjp : j = st.pointer
      · subst hjp
        omega
      · have := hlt j (by omega)
        omega
    · intro h2
      rw [hp] at h2
      have := hasc st.pointer (by omega)
      rw [hp]
      omega
  · rw [heq]
    refine ⟨hv0, hplen, fun j hj => by have := hlt j hj; omega, ?_⟩
    intro h2
    have hi := hub h2
    have hneq : t.key_frames.getD st.pointer 0 ≠ i := by
      intro hc
      apply hcond
      refine ⟨by omega, ?_⟩
      rw [get?_eq_some_getD _ _ (by omega), hc]
    omega

theorem physGo_cursor (t : Trace)
    (hasc : ∀ j, j + 1 < t.key_frames.length →
      t.key_frames.getD j 0 < t.key_frames.getD (j + 1) 0) :
    ∀ (fs : List Frame) (i : ℕ) (st st' : PState),
      physGo t true true true i fs st = some st' →
      cursorInv t.key_frames i st.pointer st.visited →
      cursorInv t.key_frames (i + fs.length) st'.pointer st'.visited := by
  intro fs
  induction fs with
  | nil =>
    intro i st st' h hinv
    obtain rfl : st = st' := by simpa [physGo] using h
    simpa using hinv
  | cons fr rest ih =>
    intro i st st' h hinv
    simp only [physGo, Option.bind_eq_bind] at h
    cases he : epochStep t true true i st with
    | none => simp [he] at h
    | some st1 =>
      rw [he] at h
      simp only [Option.some_bind] at h
      cases hf : fr.replications.foldlM
          (replStep st1.ballIds st1.carIds st1.teams1 true i) st1.out with
      | none => simp [hf] at h
      | some out1 =>
        rw [hf] at h
        simp only [Option.some_bind] at h
        have hinv1 := cursorInv_step t i st st1 hasc he hinv
        have hres := ih (i + 1) { st1 with out := out1 } st' h (by simpa using hinv1)
        have harith : i + 1 + rest.length = i + (rest.length + 1) := by omega
        rw [harith] at hres
        simpa using hres

/-- CLAIM C7 (amended): during the physics-extraction pass the epoch cursor
visits every boundary of the key-frame list EXCEPT THE LAST ONE — the guard
`update_pointer != len(update_frames) - 1` skips the final boundary, so the
re-resolution list equals `key_frames.dropLast` (for strictly ascending
boundaries that lie within the frame range). -/
theorem visitedBoundaries_eq (t : Trace) (st : PState)
    (h : get_physicsFull t true true true = some st)
    (hsort : List.Chain' (· < ·) t.key_frames)
    (hlt : ∀ j, j + 1 < t.key_frames.length →
      t.key_frames.getD j 0 < t.frames.length) :
    st.visited = t.key_frames.dropLast := by
  have hasc := chain_lt_getD t.key_frames hsort
  unfold get_physicsFull at h
  split at h
  · exact absurd h (by simp)
  · split at h
    · exact absurd h (by simp)
    · rename_i k0 kfrest hkf
      split at h
      · exact absurd h (by simp)
      · rename_i hk0
        have hinv0 : cursorInv t.key_frames 0 0 [] := by
          refine ⟨rfl, ?_, fun j hj => by omega, fun _ => by omega⟩
          rw [hkf]
          simp
        have hfin := physGo_cursor t hasc t.frames 0 _ st h hinv0
        obtain ⟨hv, hplen, hpass, hub⟩ := hfin
        have hpfin : st.pointer + 1 = t.key_frames.length := by
          by_contra hne
          have h2 : st.pointer + 1 < t.key_frames.length := by omega
          have := hub h2
          have := hlt st.pointer h2
          omega
        rw [hv, List.dropLast_eq_take]
        congr 1
        omega

/-- The final `get_physics` state on `T7`. -/
def stT7 : PState :=
  ⟨1, [1], [], [], [], [0], pmT7⟩

/-- Witness for the amended C7 on `T7`: the resolved-boundary list equals
`key_frames.dropLast = [0]`. -/
theorem visitedBoundaries_eq_witness :
    get_physicsFull T7 true true true = some stT7 ∧
    stT7.visited = T7.key_frames.dropLast :=
  ⟨by decide,
   visitedBoundaries_eq T7 stT7 (by decide) (by simp [T7, List.chain'_cons])
     (fun j hj => by
       have hj0 : j = 0 := by
         have hl : T7.key_frames.length = 2 := rfl
         omega
       subst hj0
       decide)⟩

/-- COUNTEREXAMPLE to C7 as stated: in `T7` the boundary list is `[0, 2]`
but only frame 0 is ever visited; the ball actor spawned at the final
boundary (frame 2) is never resolved, so frame 2 gets no physics entry even
though it carries a ball update. -/
theorem epoch_last_boundary_counterexample :
    visitedBoundaries T7 = some [0] ∧
    T7.key_frames = [0, 2] ∧
    2 ∈ T7.key_frames ∧ 2 ∉ ([0] : List ℕ) ∧
    get_physics T7 = some pmT7 ∧
    alget pmT7 2 = none := by
  exact ⟨by decide, by decide, by decide, by decide, by decide, by decide⟩

/-- Provenance of a stored snapshot: some replication in the trace carries
an `updated` list whose first `PHYS_ID` entry is a rigid-body state with
NON-NULL angular velocity, linear velocity, location and rotation equal to
the snapshot's four components. -/
def snapFromTrace (t : Trace) (s : Snap) : Prop :=
  ∃ fr ∈ t.frames, ∃ r ∈ fr.replications, ∃ entries rbs,
    r.value = RValue.updated (some entries) ∧ findPhys entries = some rbs ∧
    rbs.angular_velocity = some s.av ∧ rbs.linear_velocity = some s.lv ∧
    rbs.location = some s.loc ∧ rbs.rotation = some s.rot

/-- Every snapshot stored in a physics map has provenance in the trace. -/
def PmOk (t : Trace) (pm : PhysMap) : Prop :=
  ∀ p ∈ pm, ∀ q ∈ p.2, snapFromTrace t q.2

theorem pmSet_ok (t : Trace) (pm : PhysMap) (i : ℕ) (k : EKey) (s : Snap)
    (hpm : PmOk t pm) (hs : snapFromTrace t s) : PmOk t (pmSet pm i k s) := by
  intro p hp q hq
  unfold pmSet at hp
  rcases mem_alset _ _ _ _ hp with rfl | hmem
  · rcases mem_alset _ _ _ _ hq with rfl | hqmem
    · exact hs
    · cases hg : alget pm i with
      | none =>
        rw [hg] at hqmem
        simp at hqmem
      | some m =>
        rw [hg] at hqmem
        exact hpm (i, m) (alget_mem pm i m hg) q hqmem
  · exact hpm p hmem q hq

theorem interpFill_ok (t : Trace) (pm : PhysMap) (i : ℕ) (k : EKey) (s : Snap)
    (hpm : PmOk t pm) (hs : snapFromTrace t s) :
    ∀ num, PmOk t (interpFill pm i k s num) := by
  intro num
  induction num with
  | zero => exact hpm
  | succ num ih =>
    rw [interpFill_succ]
    exact pmSet_ok t _ _ _ _ ih hs

theorem interpScanAux_ok (t : Trace) (pm : PhysMap) (i : ℕ) (k : EKey) (s : Snap)
    (hpm : PmOk t pm) (hs : snapFromTrace t s) :
    ∀ fuel nm, PmOk t (interpScanAux pm i k s fuel nm) := by
  intro fuel
  induction fuel with
  | zero => intro nm; exact hpm
  | succ fuel ih =>
    intro nm
    unfold interpScanAux
    split
    · exact interpFill_ok t pm i k s hpm hs (nm - 1)
    · exact ih (nm + 1)

theorem interpStep_ok (t : Trace) (pm : PhysMap) (i : ℕ) (k : EKey) (s : Snap)
    (hpm : PmOk t pm) (hs : snapFromTrace t s) : PmOk t (interpStep pm i k s) := by
  unfold interpStep
  split
  · exact hpm
  · split
    · exact hpm
    · exact interpScanAux_ok t pm i k s hpm hs 4 1

theorem replStep_ok (t : Trace) (fr : Frame) (hfr : fr ∈ t.frames)
    (ballIds carIds teams1 : List ℤ) (interp : Bool) (i : ℕ)
    (pm pm' : PhysMap) (r : Replication) (hr : r ∈ fr.replications)
    (h : replStep ballIds carIds teams1 interp i pm r = some pm')
    (hpm : PmOk t pm) : PmOk t pm' := by
  unfold replStep at h
  split at h
  · obtain rfl : pm = pm' := by simpa using h
    exact hpm
  · split at h
    · split at h
      · obtain rfl : pm = pm' := by simpa using h
        exact hpm
      · split at h
        · obtain rfl : pm = pm' := by simpa using h
          exact hpm
        · split at h
          · obtain rfl : pm = pm' := by simpa using h
            exact hpm
          · split at h
            · obtain rfl : pm = pm' := by simpa using h
              exact hpm
            · split at h
              · rename_i x5 hmem upd entries hv x4 rbs hfp x3 av hav x2 lv hlv
                  x1 x0 loc rot hloc hrot
                have hs : snapFromTrace t ⟨av, lv, loc, rot⟩ :=
                  ⟨fr, hfr, r, hr, entries, rbs, hv, hfp, hav, hlv, hloc, hrot⟩
                simp only [Option.some_inj] at h
                rw [← h]
                split
                · exact interpStep_ok t _ i _ _
                    (pmSet_ok t pm i _ _ hpm hs) hs
                · exact pmSet_ok t pm i _ _ hpm hs
              · simp at h
    · obtain rfl : pm = pm' := by simpa using h
      exact hpm

theorem foldlM_replStep_ok (t : Trace) (fr : Frame) (hfr : fr ∈ t.frames)
    (ballIds carIds teams1 : List ℤ) (interp : Bool) (i : ℕ) :
    ∀ (rs : List Replication), (∀ r ∈ rs, r ∈ fr.replications) →
      ∀ (pm out : PhysMap),
        rs.foldlM (replStep ballIds carIds teams1 interp i) pm = some out →
        PmOk t pm → PmOk t out := by
  intro rs
  induction rs with
  | nil =>
    intro _ pm out h hpm
    obtain rfl : pm = out := by simpa using h
    exact hpm
  | cons r rs ih =>
    intro hmem pm out h hpm
    rw [List.foldlM_cons] at h
    cases hstep : replStep ballIds carIds teams1 interp i pm r with
    | none =>
      rw [hstep] at h
      simp at h
    | some pm1 =>
      rw [hstep] at h
      simp only [Option.bind_eq_bind, Option.some_bind] at h
      exact ih (fun x hx => hmem x (by simp [hx])) pm1 out h
        (replStep_ok t fr hfr _ _ _ _ i pm pm1 r (hmem r (by simp)) hstep hpm)

theorem physGo_ok (t : Trace) :
    ∀ (fs : List Frame), (∀ fr ∈ fs, fr ∈ t.frames) →
      ∀ (i : ℕ) (st st' : PState),
        physGo t true true true i fs st = some st' →
        PmOk t st.out → PmOk t st'.out := by
  intro fs
  induction fs with
  | nil =>
    intro _ i st st' h hpm
    obtain rfl : st = st' := by simpa [physGo] using h
    exact hpm
  | cons fr rest ih =>
    intro hmem i st st' h hpm
    simp only [physGo, Option.bind_eq_bind] at h
    cases he : epochStep t true true i st with
    | none => simp [he] at h
    | some st1 =>
      rw [he] at h
      simp only [Option.some_bind] at h
      cases hf : fr.replications.foldlM
          (replStep st1.ballIds st1.carIds st1.teams1 true i) st1.out with
      | none => simp [hf] at h
      | some out1 =>
        rw [hf] at h
        simp only [Option.some_bind] at h
        have hout1 : st1.out = st.out := by
          rcases epochStep_cases t i st st1 he with ⟨_, _, _, _, hout⟩ | ⟨_, heq⟩
          · exact hout
          · rw [heq]
        have hok1 : PmOk t out1 :=
          foldlM_replStep_ok t fr (hmem fr (by simp)) _ _ _ _ i
            fr.replications (fun x hx => hx) st1.out out1 hf (hout1 ▸ hpm)
        exact ih (fun x hx => hmem x (by simp [hx])) (i + 1)
          { st1 with out := out1 } st' h hok1

/-- CLAIM C10: every snapshot stored in the physics collection (including
interpolated copies) consists of exactly the 13 component values, and its
angular velocity and linear velocity (as well as location and rotation)
equal the NON-NULL fields of an actual rigid-body state in the trace —
updates with a null angular or linear velocity are skipped, never
zero-filled. -/
theorem get_physics_provenance (t : Trace) (pm : PhysMap)
    (h : get_physics t = some pm) :
    ∀ p ∈ pm, ∀ q ∈ p.2, (Snap.flatten q.2).length = 13 ∧ snapFromTrace t q.2 := by
  have hfull : ∃ st : PState, get_physicsFull t true true true = some st ∧ st.out = pm := by
    unfold get_physics at h
    cases hf : get_physicsFull t true true true with
    | none => rw [hf] at h; simp at h
    | some st =>
      rw [hf] at h
      exact ⟨st, rfl, by simpa using h⟩
  obtain ⟨st, hf, rfl⟩ := hfull
  unfold get_physicsFull at hf
  split at hf
  · exact absurd hf (by simp)
  · split at hf
    · exact absurd hf (by simp)
    · split at hf
      · exact absurd hf (by simp)
      · intro p hp q hq
        refine ⟨rfl, ?_⟩
        have hok := physGo_ok t t.frames (fun x hx => hx) 0
          ⟨0, [], [], [], [], [], []⟩ st hf (by intro p hp; simp at hp)
        exact hok p hp q hq

/-- Witness for C10 on `TFeat`: the ball snapshot stored at frame 0 has 13
components and provenance in the trace. -/
theorem get_physics_provenance_witness :
    ((mkSnap 0 0).flatten).length = 13 ∧ snapFromTrace TFeat (mkSnap 0 0) :=
  get_physics_provenance TFeat pmFeat (by decide)
    (0, [(EKey.car 0 2, mkSnap 5 0), (EKey.ball, mkSnap 0 0)]) (by decide)
    (EKey.ball, mkSnap 0 0) (by decide)

end PhysPar
